import Mathlib

/-!
Shallow embedding of `apitest.py`: a batch utility that reads the first
column of a spreadsheet, requests an embedding vector for each text from a
remote API through an in-memory cache persisted to a JSON file, and appends
(text, embedding) rows to a CSV file from a fixed-size thread pool.

The embedding has two layers over the same per-task code:
* a sequential big-step layer (`processText`, `runTasks`, `run`) used for
  the race-free functional claims, and
* a small-step interleaving layer (`taskStep`, `cstep`, `crun`) in which
  each lock-protected region of a worker is one atomic step, used for the
  concurrency claim about duplicate remote calls.
-/

set_option autoImplicit false

namespace ApiTest

/-- Embedding vectors are opaque sequences of numbers: the program never
computes with the components, so they are modelled as rationals. -/
abbrev Embedding := List ℚ

/-- A cell of the first spreadsheet column as `pandas` delivers it to the
comprehension on line 68: either a textual value, or a missing value
(an empty Excel cell is read as the float `NaN`). -/
inductive Cell
  | text (s : String)
  | missing
deriving DecidableEq

/-- Python `str(row)` applied to a cell value: a string renders as itself,
and a missing cell (pandas `NaN`, i.e. `float('nan')`) renders as the
literal string `nan`. -/
def pyStr : Cell → String
  | .text s => s
  | .missing => "nan"

/-- Python `str.strip()`: removes whitespace characters from both ends of
the string. -/
def pyStrip (s : String) : String :=
  String.mk (((s.data.dropWhile Char.isWhitespace).reverse.dropWhile
    Char.isWhitespace).reverse)

/-- `str(row).strip()` from line 68 of `apitest.py`. -/
def cellText (c : Cell) : String := pyStrip (pyStr c)

/-- The list comprehension on line 68:
`texts = [str(row).strip() for row in df.iloc[:, 0] if str(row).strip()]`.
A row passes exactly when its stripped string form is truthy, i.e.
non-empty; the first row is not treated specially. -/
def extractTexts : List Cell → List String
  | [] => []
  | c :: rest =>
      if cellText c = "" then extractTexts rest
      else cellText c :: extractTexts rest

/-- `pd.read_excel(input_excel)` on line 67, restricted to the first
column.  `read_excel` is called with its default `header=0`, so the
spreadsheet's first row is consumed as the column labels of the
DataFrame and is not part of the data; `df.iloc[:, 0]` then holds the
first-column cells of the remaining rows, in order. -/
def readExcelFirstColumn (sheet : List Cell) : List Cell := sheet.drop 1

/-- The work items of a run: the column delivered by the line-67 parse,
fed to the line-68 comprehension. -/
def workItems (sheet : List Cell) : List String :=
  extractTexts (readExcelFirstColumn sheet)

/-- The in-memory cache, a Python `dict` from text to embedding, modelled
as an insertion-ordered association list (no duplicate keys arise from the
operations below). -/
abbrev Cache := List (String × Embedding)

/-- Python `text in cache` / `cache[text]` (lines 39-40). -/
def cacheLookup : Cache → String → Option Embedding
  | [], _ => none
  | p :: rest, k => if p.1 = k then some p.2 else cacheLookup rest k

/-- Python `cache[text] = embedding` (line 49): a dict assignment replaces
the value when the key is already present and otherwise appends the new
pair at the end. -/
def dictSet : Cache → String → Embedding → Cache
  | [], k, v => [(k, v)]
  | p :: rest, k, v =>
      if p.1 = k then (k, v) :: rest else p :: dictSet rest k v

/-- One row of the output CSV file.  A data row holds the text and the
embedding (serialized by `json.dumps` in the source; serialization is out
of scope, so the vector is kept as is). -/
inductive Row
  | header
  | data (text : String) (emb : Embedding)
deriving DecidableEq

/-- The observable effects a task can perform, recorded in program order:
the remote API call, the cache insert, the output-row write, and the
full-cache persist of `save_cache`. -/
inductive Action
  | remote
  | insert
  | write
  | persist
deriving DecidableEq

/-- The mutable state of one run: the in-memory cache, the on-disk cache
file, the output file contents, the failure messages printed so far
(text and error detail), the texts sent to the remote API in call order,
and the log of effects. -/
structure RunState where
  cache : Cache
  cacheFile : Cache
  outFile : List Row
  failures : List (String × String)
  remoteCalls : List String
  events : List Action

/-- The remote embedding endpoint (`client.embeddings.create`): one round
trip per call, returning a vector or raising an error. -/
abbrev RemoteClient := String → Except String Embedding

/-- `save_cache()` (lines 31-34): rewrites the cache file with the entire
in-memory mapping, under the cache lock. -/
def saveCache (s : RunState) : RunState :=
  { s with cacheFile := s.cache, events := s.events ++ [Action.persist] }

/-- `get_embedding(text)` (lines 37-53): a cache lookup under the lock; on
a miss, one remote call; on success the result is stored with
`cache[text] = embedding` under the lock and returned; on failure the
error is printed together with the text and `None` is returned. -/
def getEmbedding (client : RemoteClient) (text : String) (s : RunState) :
    Option Embedding × RunState :=
  match cacheLookup s.cache text with
  | some v => (some v, s)
  | none =>
      match client text with
      | .ok emb =>
          (some emb,
            { s with
                cache := dictSet s.cache text emb,
                remoteCalls := s.remoteCalls ++ [text],
                events := s.events ++ [Action.remote, Action.insert] })
      | .error e =>
          (none,
            { s with
                remoteCalls := s.remoteCalls ++ [text],
                failures := s.failures ++ [(text, e)],
                events := s.events ++ [Action.remote] })

/-- Python truthiness of the `embedding` variable in `process_text`
(line 59): `None` and the empty list are falsy, a non-empty list is
truthy. -/
def embTruthy : Option Embedding → Bool
  | none => false
  | some l => !l.isEmpty

/-- `process_text` (lines 56-62): obtain the embedding; if it is truthy,
write one output row under the write lock and then persist the cache.
The progress print on line 57 has no observable effect on the state
modelled here. -/
def processText (client : RemoteClient) (text : String) (s : RunState) :
    RunState :=
  let r := getEmbedding client text s
  if embTruthy r.1 then
    saveCache
      { r.2 with
          outFile := r.2.outFile ++ [Row.data text (r.1.getD [])],
          events := r.2.events ++ [Action.write] }
  else r.2

/-- The task fan-out of `process_excel_parallel` (lines 76-82) under the
race-free sequential schedule: one completed task per input text, in
order. -/
def runTasks (client : RemoteClient) (texts : List String) (s : RunState) :
    RunState :=
  texts.foldl (fun st t => processText client t st) s

/-- The durable state between runs: the output CSV file and the cache
file. -/
structure World where
  outFile : List Row
  cacheFile : Cache

def World.empty : World := ⟨[], []⟩

/-- The state at the start of a run: `load_cache()` reads the cache file
(an absent file leaves the cache empty), the output file is opened in
append mode (creating it when missing), and the header row is written
exactly when the file is empty at open time (lines 66-74). -/
def initRunState (w : World) : RunState :=
  { cache := w.cacheFile,
    cacheFile := w.cacheFile,
    outFile := if w.outFile.isEmpty then [Row.header] else w.outFile,
    failures := [],
    remoteCalls := [],
    events := [] }

/-- `process_excel_parallel` (lines 65-84) under the sequential schedule,
keeping the full final state. -/
def runFull (client : RemoteClient) (cells : List Cell) (w : World) :
    RunState :=
  runTasks client (extractTexts cells) (initRunState w)

/-- One whole run, keeping only the durable state. -/
def run (client : RemoteClient) (cells : List Cell) (w : World) : World :=
  { outFile := (runFull client cells w).outFile,
    cacheFile := (runFull client cells w).cacheFile }

/-- A sequence of complete program runs against the same output and cache
files. -/
def runAll (jobs : List (RemoteClient × List Cell)) (w : World) : World :=
  jobs.foldl (fun wa job => run job.1 job.2 wa) w

/-- The effects appended to the event log by one task. -/
def taskEvents (client : RemoteClient) (text : String) (s : RunState) :
    List Action :=
  (processText client text s).events.drop s.events.length

/-- The remote client of the spec's concrete scenario: `alpha` embeds to
`[1.0]`, `beta` to `[2.0]`, anything else fails. -/
def sampleClient : RemoteClient := fun t =>
  if t = "alpha" then .ok [1]
  else if t = "beta" then .ok [2]
  else .error "remote error"

/-- A remote client that answers every request with the empty vector. -/
def emptyVecClient : RemoteClient := fun _ => .ok []

/-- The input column of the spec's concrete scenario. -/
def cells5 : List Cell := [Cell.text "alpha", Cell.text "beta", Cell.text "alpha"]

/-- The program counter of one worker task in the interleaving model,
between its atomic lock-protected regions: before the cache lookup, after
a miss (about to issue the remote call), about to run
`cache[text] = embedding`, about to run the truthiness test and row write,
about to run `save_cache`, and finished. -/
inductive TaskPC
  | ready
  | missed
  | toInsert (e : Embedding)
  | toWrite (e : Embedding)
  | toPersist
  | halted
deriving DecidableEq

/-- One worker task of the pool: its input text and program counter. -/
structure CTask where
  text : String
  pc : TaskPC

/-- A configuration of the thread pool: the tasks (one per input text)
and the shared state. -/
structure Conf where
  tasks : List CTask
  st : RunState

/-- One atomic step of a single task against the shared state, following
`get_embedding` and `process_text` region by region. -/
def taskStep (client : RemoteClient) (t : CTask) (s : RunState) :
    CTask × RunState :=
  match t.pc with
  | .ready =>
      match cacheLookup s.cache t.text with
      | some v => ({ t with pc := .toWrite v }, s)
      | none => ({ t with pc := .missed }, s)
  | .missed =>
      match client t.text with
      | .ok e =>
          ({ t with pc := .toInsert e },
            { s with
                remoteCalls := s.remoteCalls ++ [t.text],
                events := s.events ++ [Action.remote] })
      | .error msg =>
          ({ t with pc := .halted },
            { s with
                remoteCalls := s.remoteCalls ++ [t.text],
                failures := s.failures ++ [(t.text, msg)],
                events := s.events ++ [Action.remote] })
  | .toInsert e =>
      ({ t with pc := .toWrite e },
        { s with
            cache := dictSet s.cache t.text e,
            events := s.events ++ [Action.insert] })
  | .toWrite e =>
      if e.isEmpty then ({ t with pc := .halted }, s)
      else
        ({ t with pc := .toPersist },
          { s with
              outFile := s.outFile ++ [Row.data t.text e],
              events := s.events ++ [Action.write] })
  | .toPersist => ({ t with pc := .halted }, saveCache s)
  | .halted => (t, s)

/-- Run one step of the task with index `i`; an index out of range is a
no-op. -/
def cstep (client : RemoteClient) (c : Conf) (i : Nat) : Conf :=
  match c.tasks[i]? with
  | none => c
  | some t =>
      { tasks := c.tasks.set i (taskStep client t c.st).1,
        st := (taskStep client t c.st).2 }

/-- Run the steps of an arbitrary schedule (a list of task indices). -/
def crun (client : RemoteClient) (sched : List Nat) (c : Conf) : Conf :=
  sched.foldl (cstep client) c

/-- The initial pool configuration: one ready task per input text. -/
def initConf (w : World) (texts : List String) : Conf :=
  { tasks := texts.map (fun t => { text := t, pc := TaskPC.ready }),
    st := initRunState w }

/-- Remaining remote-call budget of a task: a task can still reach the
remote call only before its cache lookup or right after a miss. -/
def remoteBudget : TaskPC → Nat
  | .ready => 1
  | .missed => 1
  | _ => 0

/-- The budget of a task, counted only for tasks on the text `T`. -/
def taskWeight (T : String) (t : CTask) : Nat :=
  if t.text = T then remoteBudget t.pc else 0

/-- Remote calls already issued for `T` plus the budget still able to
produce one: non-increasing along every schedule. -/
def potential (T : String) (c : Conf) : Nat :=
  c.st.remoteCalls.count T + (c.tasks.map (taskWeight T)).sum

/-- Invariant of the output file once a run has touched it: the header is
the first row and the only header row. -/
def outInv (l : List Row) : Prop :=
  l.head? = some Row.header ∧ l.count Row.header = 1

/-! ## Basic lemmas about the cache -/

lemma cellText_missing : cellText Cell.missing = "nan" := rfl

lemma nan_ne_empty : ("nan" : String) ≠ "" := by decide

lemma lookup_dictSet_self (m : Cache) (k : String) (v : Embedding) :
    cacheLookup (dictSet m k v) k = some v := by
  induction m with
  | nil => simp [dictSet, cacheLookup]
  | cons p rest ih =>
      by_cases hp : p.1 = k <;> simp [dictSet, hp, cacheLookup, ih]

lemma lookup_dictSet_ne (m : Cache) (k T : String) (v : Embedding)
    (h : k ≠ T) :
    cacheLookup (dictSet m k v) T = cacheLookup m T := by
  induction m with
  | nil => simp [dictSet, cacheLookup, h]
  | cons p rest ih =>
      by_cases hp : p.1 = k
      · subst hp
        simp [dictSet, cacheLookup, h]
      · simp [dictSet, hp, cacheLookup, ih]

/-! ## The extraction of work items -/

lemma extractTexts_eq_filter (cells : List Cell) :
    extractTexts cells =
      (cells.map cellText).filter (fun s => decide (s ≠ "")) := by
  induction cells with
  | nil => rfl
  | cons a as ih =>
      by_cases h : cellText a = "" <;> simp [extractTexts, h, ih]

/-- C1 counterexample: `pd.read_excel` on line 67 keeps its default
`header=0`, so the spreadsheet's first row is consumed as column labels.
On a sheet whose row 1 holds the non-empty text `head` and whose row 2
holds `alpha`, the work items are exactly `alpha`: the row-1 text is
excluded, so it is not treated as a work item like any other. -/
theorem C1_counterexample :
    workItems [Cell.text "head", Cell.text "alpha"] = ["alpha"] ∧
    "head" ∉ workItems [Cell.text "head", Cell.text "alpha"] := by
  decide

/-- C1 amended: the sequence of work items is exactly the non-empty
(after trimming) cells of the first column in row order, excluding the
spreadsheet's first row, which the default `header=0` of `pd.read_excel`
consumes as column labels; whatever the first row holds it is dropped,
and the rows after it are treated uniformly, with no further
exclusion. -/
theorem C1_work_items_amended (sheet : List Cell) (h c : Cell)
    (rest : List Cell) :
    workItems sheet =
      ((sheet.drop 1).map cellText).filter (fun s => decide (s ≠ "")) ∧
    workItems (h :: rest) = extractTexts rest ∧
    extractTexts (c :: rest) =
      (if cellText c = "" then extractTexts rest
       else cellText c :: extractTexts rest) :=
  ⟨extractTexts_eq_filter (sheet.drop 1), rfl, rfl⟩

/-- C9: a missing cell is rendered by the string conversion as the
literal text `nan`, which survives the non-empty filter wherever the cell
occurs in the column; and a run whose only work item is such a cell sends
the text `nan` to the remote embedding API. -/
theorem C9_missing_cell_nan (pre post : List Cell) (client : RemoteClient) :
    pyStr Cell.missing = "nan" ∧
    extractTexts (pre ++ Cell.missing :: post) =
      extractTexts pre ++ "nan" :: extractTexts post ∧
    (runFull client [Cell.missing] World.empty).remoteCalls = ["nan"] := by
  refine ⟨rfl, ?_, ?_⟩
  · induction pre with
    | nil => simp [extractTexts, cellText_missing, nan_ne_empty]
    | cons a as ih =>
        by_cases h : cellText a = "" <;> simp [extractTexts, h, ih]
  · have htexts : extractTexts [Cell.missing] = ["nan"] := by
      simp [extractTexts, cellText_missing, nan_ne_empty]
    have hmiss :
        cacheLookup (initRunState World.empty).cache "nan" = none := rfl
    cases hc : client "nan" with
    | ok e =>
        by_cases he : e.isEmpty <;>
          simp [runFull, htexts, runTasks, processText, getEmbedding,
            cacheLookup, hc, embTruthy, he, saveCache, initRunState,
            World.empty]
    | error msg =>
        simp [runFull, htexts, runTasks, processText, getEmbedding,
          cacheLookup, hc, embTruthy, initRunState, World.empty]

/-- C2 counterexample: the cache insert is the Python dict assignment
`cache[text] = embedding`, which replaces an existing entry; inserting on
a cache already holding `[1.0]` for the text `t` leaves `[2.0]`, not the
old entry, so the insert does not leave the entry unchanged. -/
theorem C2_counterexample :
    cacheLookup (dictSet [("t", [1])] "t" [2]) "t" = some [2] ∧
    some ([2] : Embedding) ≠ some ([1] : Embedding) := by
  refine ⟨rfl, ?_⟩
  decide

/-- C2 amended: the cache insert operation stores the pair
unconditionally; when an entry for the text is already present, the insert
overwrites it with the new embedding (last writer wins). -/
theorem C2_insert_overwrites (m : Cache) (T : String) (v vnew : Embedding)
    (_h : cacheLookup m T = some v) :
    cacheLookup (dictSet m T vnew) T = some vnew :=
  lookup_dictSet_self m T vnew

/-- Witness for the amended C2 at a concrete cache. -/
theorem C2_insert_overwrites_witness :
    cacheLookup [("t", ([1] : Embedding))] "t" = some [1] ∧
    cacheLookup (dictSet [("t", [1])] "t" [2]) "t" = some [2] :=
  ⟨rfl, C2_insert_overwrites [("t", [1])] "t" [1] [2] rfl⟩

/-- C10: when the remote call succeeds with the empty vector for an
uncached text, the task inserts the empty vector into the in-memory cache,
but the truthiness test then treats it like a failure: no output row is
written, no cache persist runs, no failure is reported, and the only other
trace of the task is the remote call itself. -/
theorem C10_empty_embedding (client : RemoteClient) (T : String)
    (s : RunState)
    (hmiss : cacheLookup s.cache T = none) (hok : client T = .ok []) :
    cacheLookup (processText client T s).cache T = some [] ∧
    (processText client T s).outFile = s.outFile ∧
    (processText client T s).cacheFile = s.cacheFile ∧
    (processText client T s).failures = s.failures ∧
    (processText client T s).remoteCalls = s.remoteCalls ++ [T] ∧
    (processText client T s).events =
      s.events ++ [Action.remote, Action.insert] := by
  simp [processText, getEmbedding, hmiss, hok, embTruthy, lookup_dictSet_self]

/-- Witness for C10 at a concrete state and client. -/
theorem C10_empty_embedding_witness :
    cacheLookup (initRunState World.empty).cache "x" = none ∧
    emptyVecClient "x" = .ok [] ∧
    (cacheLookup (processText emptyVecClient "x"
        (initRunState World.empty)).cache "x" = some [] ∧
      (processText emptyVecClient "x" (initRunState World.empty)).outFile =
        (initRunState World.empty).outFile ∧
      (processText emptyVecClient "x" (initRunState World.empty)).cacheFile =
        (initRunState World.empty).cacheFile ∧
      (processText emptyVecClient "x" (initRunState World.empty)).failures =
        (initRunState World.empty).failures ∧
      (processText emptyVecClient "x" (initRunState World.empty)).remoteCalls =
        (initRunState World.empty).remoteCalls ++ ["x"] ∧
      (processText emptyVecClient "x" (initRunState World.empty)).events =
        (initRunState World.empty).events ++
          [Action.remote, Action.insert]) :=
  ⟨rfl, rfl,
    C10_empty_embedding emptyVecClient "x" (initRunState World.empty) rfl rfl⟩

/-- C4: when the remote call for an uncached text raises an error, the
task for that text leaves the in-memory cache, the cache file and the
output file unchanged, records the failure together with the text and the
error detail, and only registers the attempted remote call; and the run
goes on to process the remaining texts from that state. -/
theorem C4_skip_on_failure (client : RemoteClient) (T e : String)
    (s : RunState) (rest : List String)
    (hmiss : cacheLookup s.cache T = none) (herr : client T = .error e) :
    processText client T s =
      { s with
          remoteCalls := s.remoteCalls ++ [T],
          failures := s.failures ++ [(T, e)],
          events := s.events ++ [Action.remote] } ∧
    runTasks client (T :: rest) s =
      runTasks client rest (processText client T s) := by
  constructor
  · simp [processText, getEmbedding, hmiss, herr, embTruthy]
  · rfl

/-- Witness for C4 at a concrete state and client. -/
theorem C4_skip_on_failure_witness :
    cacheLookup (initRunState World.empty).cache "gamma" = none ∧
    sampleClient "gamma" = .error "remote error" ∧
    (processText sampleClient "gamma" (initRunState World.empty) =
        { initRunState World.empty with
            remoteCalls := (initRunState World.empty).remoteCalls ++ ["gamma"],
            failures := (initRunState World.empty).failures ++
              [("gamma", "remote error")],
            events := (initRunState World.empty).events ++ [Action.remote] } ∧
      runTasks sampleClient ("gamma" :: ["beta"]) (initRunState World.empty) =
        runTasks sampleClient ["beta"]
          (processText sampleClient "gamma" (initRunState World.empty))) :=
  ⟨rfl, rfl,
    C4_skip_on_failure sampleClient "gamma" "remote error"
      (initRunState World.empty) ["beta"] rfl rfl⟩

/-! ## Existing cache entries survive a run -/

lemma processText_cache_mono (client : RemoteClient) (t T : String)
    (v : Embedding) (s : RunState) (h : cacheLookup s.cache T = some v) :
    cacheLookup (processText client t s).cache T = some v := by
  by_cases ht : t = T
  · subst ht
    simp [processText, getEmbedding, h]
    split <;> simp [saveCache, h]
  · cases hl : cacheLookup s.cache t with
    | some u =>
        simp [processText, getEmbedding, hl]
        split <;> simp [saveCache, h]
    | none =>
        cases hc : client t with
        | ok e =>
            simp [processText, getEmbedding, hl, hc]
            split <;> simp [saveCache, lookup_dictSet_ne _ _ _ _ ht, h]
        | error msg =>
            simp [processText, getEmbedding, hl, hc, embTruthy, h]

lemma runTasks_cache_mono (client : RemoteClient) (ts : List String)
    (T : String) (v : Embedding) (s : RunState)
    (h : cacheLookup s.cache T = some v) :
    cacheLookup (runTasks client ts s).cache T = some v := by
  induction ts generalizing s with
  | nil => exact h
  | cons t rest ih => exact ih _ (processText_cache_mono client t T v s h)

/-- C6: when the cache persisted by a first run holds the embedding `v`
for a text, a second run loads that cache, and a request for the text in
the second run returns exactly `v` while leaving the state untouched — in
particular it issues no remote call; moreover every later request for the
text during the second run still finds `v` in the cache, whatever the
second run's client answers. -/
theorem C6_idempotent_cache (client1 client2 : RemoteClient)
    (cells1 : List Cell) (w0 : World) (T : String) (v : Embedding)
    (ts : List String)
    (h : cacheLookup (run client1 cells1 w0).cacheFile T = some v) :
    (getEmbedding client2 T (initRunState (run client1 cells1 w0))).1 =
      some v ∧
    (getEmbedding client2 T (initRunState (run client1 cells1 w0))).2 =
      initRunState (run client1 cells1 w0) ∧
    (getEmbedding client2 T
      (initRunState (run client1 cells1 w0))).2.remoteCalls = [] ∧
    cacheLookup (runTasks client2 ts
      (initRunState (run client1 cells1 w0))).cache T = some v := by
  have hc : cacheLookup (initRunState (run client1 cells1 w0)).cache T =
      some v := h
  refine ⟨?_, ?_, ?_, runTasks_cache_mono client2 ts T v _ hc⟩ <;>
    simp [getEmbedding, initRunState, h]

/-- Witness for C6: a first run on the single cell alpha persists the
embedding for alpha, and the second run serves it from the cache. -/
theorem C6_idempotent_cache_witness :
    cacheLookup (run sampleClient [Cell.text "alpha"]
        World.empty).cacheFile "alpha" = some [1] ∧
    ((getEmbedding sampleClient "alpha"
        (initRunState (run sampleClient [Cell.text "alpha"]
          World.empty))).1 = some [1] ∧
      (getEmbedding sampleClient "alpha"
        (initRunState (run sampleClient [Cell.text "alpha"]
          World.empty))).2 =
        initRunState (run sampleClient [Cell.text "alpha"] World.empty) ∧
      (getEmbedding sampleClient "alpha"
        (initRunState (run sampleClient [Cell.text "alpha"]
          World.empty))).2.remoteCalls = [] ∧
      cacheLookup (runTasks sampleClient ["alpha"]
        (initRunState (run sampleClient [Cell.text "alpha"]
          World.empty))).cache "alpha" = some [1]) :=
  ⟨rfl,
    C6_idempotent_cache sampleClient sampleClient [Cell.text "alpha"]
      World.empty "alpha" [1] ["alpha"] rfl⟩

/-- C5: the spec's concrete scenario under the race-free schedule: input
texts alpha, beta, alpha; the run issues exactly the two remote calls
alpha then beta, appends exactly the three data rows after the header (one
per input occurrence, including the duplicate alpha), and leaves exactly
the two entries alpha and beta in the cache and the persisted cache
file. -/
theorem C5_concrete_scenario :
    (runFull sampleClient cells5 World.empty).remoteCalls =
      ["alpha", "beta"] ∧
    (runFull sampleClient cells5 World.empty).remoteCalls.length = 2 ∧
    (runFull sampleClient cells5 World.empty).outFile =
      [Row.header, Row.data "alpha" [1], Row.data "beta" [2],
        Row.data "alpha" [1]] ∧
    (runFull sampleClient cells5 World.empty).cache =
      [("alpha", [1]), ("beta", [2])] ∧
    (runFull sampleClient cells5 World.empty).cacheFile =
      [("alpha", [1]), ("beta", [2])] ∧
    (runFull sampleClient cells5 World.empty).cacheFile.length = 2 :=
  ⟨rfl, rfl, rfl, rfl, rfl, rfl⟩

/-! ## The output file across runs -/

lemma processText_outFile (client : RemoteClient) (t : String)
    (s : RunState) :
    (processText client t s).outFile = s.outFile ∨
    ∃ e, (processText client t s).outFile = s.outFile ++ [Row.data t e] := by
  cases hl : cacheLookup s.cache t with
  | some u =>
      by_cases hu : u.isEmpty
      · exact Or.inl (by simp [processText, getEmbedding, hl, embTruthy, hu])
      · exact Or.inr ⟨u,
          by simp [processText, getEmbedding, hl, embTruthy, hu, saveCache]⟩
  | none =>
      cases hc : client t with
      | ok e =>
          by_cases he : e.isEmpty
          · exact Or.inl
              (by simp [processText, getEmbedding, hl, hc, embTruthy, he])
          · exact Or.inr ⟨e,
              by simp [processText, getEmbedding, hl, hc, embTruthy, he,
                saveCache]⟩
      | error msg =>
          exact Or.inl
            (by simp [processText, getEmbedding, hl, hc, embTruthy])

lemma runTasks_outFile (client : RemoteClient) (ts : List String)
    (s : RunState) :
    ∃ extra, (runTasks client ts s).outFile = s.outFile ++ extra ∧
      Row.header ∉ extra := by
  induction ts generalizing s with
  | nil => exact ⟨[], by simp [runTasks], by simp⟩
  | cons t rest ih =>
      obtain ⟨extra, hex, hmem⟩ := ih (processText client t s)
      have hstep :
          runTasks client (t :: rest) s =
            runTasks client rest (processText client t s) := rfl
      rcases processText_outFile client t s with h1 | ⟨e, h2⟩
      · exact ⟨extra, by rw [hstep, hex, h1], hmem⟩
      · refine ⟨Row.data t e :: extra, ?_, ?_⟩
        · rw [hstep, hex, h2]
          simp
        · simp [hmem]

lemma run_outFile (client : RemoteClient) (cells : List Cell) (w : World) :
    ∃ extra, (run client cells w).outFile =
      (if w.outFile.isEmpty then [Row.header] else w.outFile) ++ extra ∧
      Row.header ∉ extra := by
  have h := runTasks_outFile client (extractTexts cells) (initRunState w)
  simpa [run, runFull, initRunState] using h

lemma run_outInv (client : RemoteClient) (cells : List Cell) (w : World)
    (h : w.outFile = [] ∨ outInv w.outFile) :
    outInv (run client cells w).outFile := by
  obtain ⟨extra, hex, hmem⟩ := run_outFile client cells w
  have hcount : extra.count Row.header = 0 :=
    List.count_eq_zero.mpr hmem
  cases h with
  | inl h0 =>
      rw [hex]
      constructor
      · simp [h0]
      · simp [h0, List.count_append, hcount, List.count_cons]
  | inr hInv =>
      obtain ⟨hhead, hone⟩ := hInv
      cases hw : w.outFile with
      | nil => rw [hw] at hhead; simp at hhead
      | cons a tl =>
          rw [hw] at hhead
          simp at hhead
          subst hhead
          rw [hex, hw]
          constructor
          · simp
          · rw [hw] at hone
            simp [List.count_append, hcount]
            simpa using hone

lemma runAll_outInv (jobs : List (RemoteClient × List Cell)) (w : World)
    (h : outInv w.outFile) :
    outInv (runAll jobs w).outFile := by
  induction jobs generalizing w with
  | nil => exact h
  | cons j rest ih => exact ih _ (run_outInv j.1 j.2 w (Or.inr h))

/-- C7: starting from an absent or empty output file, after any non-empty
sequence of runs the output file has exactly one header row and it sits
at position 0; and each single run appends to the existing contents
(writing the header first exactly when the file was empty at open time)
without ever producing another header row. -/
theorem C7_header_invariant (jobs : List (RemoteClient × List Cell))
    (client : RemoteClient) (cells : List Cell) (w : World)
    (h : jobs ≠ []) :
    ((runAll jobs World.empty).outFile.head? = some Row.header ∧
      (runAll jobs World.empty).outFile.count Row.header = 1) ∧
    ∃ extra, (run client cells w).outFile =
        (if w.outFile.isEmpty then [Row.header] else w.outFile) ++ extra ∧
      Row.header ∉ extra := by
  constructor
  · cases jobs with
    | nil => exact absurd rfl h
    | cons j rest =>
        exact runAll_outInv rest _ (run_outInv j.1 j.2 World.empty
          (Or.inl rfl))
  · exact run_outFile client cells w

/-- Witness for C7 at a single concrete run. -/
theorem C7_header_invariant_witness :
    ([(sampleClient, cells5)] : List (RemoteClient × List Cell)) ≠ [] ∧
    (((runAll [(sampleClient, cells5)] World.empty).outFile.head? =
        some Row.header ∧
      (runAll [(sampleClient, cells5)] World.empty).outFile.count
        Row.header = 1) ∧
      ∃ extra, (run sampleClient cells5 World.empty).outFile =
          (if (World.empty).outFile.isEmpty then [Row.header]
           else (World.empty).outFile) ++ extra ∧
        Row.header ∉ extra) :=
  ⟨List.cons_ne_nil _ _,
    C7_header_invariant [(sampleClient, cells5)] sampleClient cells5
      World.empty (List.cons_ne_nil _ _)⟩

/-! ## The order of effects inside one task -/

lemma taskEvents_of_success (client : RemoteClient) (text : String)
    (s : RunState)
    (hsucc : (processText client text s).outFile.length =
      s.outFile.length + 1) :
    taskEvents client text s = [Action.write, Action.persist] ∨
    taskEvents client text s =
      [Action.remote, Action.insert, Action.write, Action.persist] := by
  cases hl : cacheLookup s.cache text with
  | some u =>
      by_cases hu : u.isEmpty
      · exfalso
        simp [processText, getEmbedding, hl, embTruthy, hu] at hsucc
      · refine Or.inl ?_
        simp [taskEvents, processText, getEmbedding, hl, embTruthy, hu,
          saveCache, List.drop_left]
  | none =>
      cases hc : client text with
      | ok e =>
          by_cases he : e.isEmpty
          · exfalso
            simp [processText, getEmbedding, hl, hc, embTruthy, he] at hsucc
          · refine Or.inr ?_
            simp [taskEvents, processText, getEmbedding, hl, hc, embTruthy,
              he, saveCache, List.drop_left]
      | error msg =>
          exfalso
          simp [processText, getEmbedding, hl, hc, embTruthy] at hsucc

/-- C8: in every task that writes an output row, the events the task adds
to the log contain exactly one persist, the persist comes last, every
cache insert of the task precedes its row write, and the row write
precedes the persist — so the insert happens before the write, the write
before the persist, and the full-cache persist runs once per successful
task, right after its row. -/
theorem C8_task_ordering (client : RemoteClient) (text : String)
    (s : RunState)
    (hsucc : (processText client text s).outFile.length =
      s.outFile.length + 1) :
    (taskEvents client text s).count Action.persist = 1 ∧
    (taskEvents client text s).getLast? = some Action.persist ∧
    (∀ i j : Fin (taskEvents client text s).length,
      (taskEvents client text s).get i = Action.insert →
      (taskEvents client text s).get j = Action.write →
      (i : Nat) < (j : Nat)) ∧
    (∀ i j : Fin (taskEvents client text s).length,
      (taskEvents client text s).get i = Action.write →
      (taskEvents client text s).get j = Action.persist →
      (i : Nat) < (j : Nat)) := by
  rcases taskEvents_of_success client text s hsucc with h | h <;>
    rw [h] <;> decide

/-- Witness for C8 at a concrete successful task. -/
theorem C8_task_ordering_witness :
    (processText sampleClient "alpha" (initRunState World.empty)).outFile.length =
      (initRunState World.empty).outFile.length + 1 ∧
    ((taskEvents sampleClient "alpha"
        (initRunState World.empty)).count Action.persist = 1 ∧
      (taskEvents sampleClient "alpha"
        (initRunState World.empty)).getLast? = some Action.persist ∧
      (∀ i j : Fin (taskEvents sampleClient "alpha"
          (initRunState World.empty)).length,
        (taskEvents sampleClient "alpha"
          (initRunState World.empty)).get i = Action.insert →
        (taskEvents sampleClient "alpha"
          (initRunState World.empty)).get j = Action.write →
        (i : Nat) < (j : Nat)) ∧
      (∀ i j : Fin (taskEvents sampleClient "alpha"
          (initRunState World.empty)).length,
        (taskEvents sampleClient "alpha"
          (initRunState World.empty)).get i = Action.write →
        (taskEvents sampleClient "alpha"
          (initRunState World.empty)).get j = Action.persist →
        (i : Nat) < (j : Nat))) :=
  ⟨rfl,
    C8_task_ordering sampleClient "alpha" (initRunState World.empty) rfl⟩

/-! ## At most one remote call per task, along every schedule -/

lemma sum_map_set (f : CTask → Nat) (l : List CTask) :
    ∀ (i : Nat) (x : CTask) (h : i < l.length),
      ((l.set i x).map f).sum + f (l.get ⟨i, h⟩) = (l.map f).sum + f x := by
  induction l with
  | nil => intro i x h; simp at h
  | cons a as ih =>
      intro i x h
      cases i with
      | zero => simp [List.set]; omega
      | succ i =>
          have h2 : i < as.length := by
            simpa using Nat.lt_of_succ_lt_succ h
          have hrec := ih i x h2
          simp only [List.set, List.map_cons, List.sum_cons,
            List.get_cons_succ]
          omega

lemma count_append_one (l : List String) (a T : String) :
    (l ++ [a]).count T = l.count T + (if a = T then 1 else 0) := by
  by_cases h : a = T <;>
    simp [List.count_append, List.count_cons, h]

lemma taskStep_key (client : RemoteClient) (T : String) (t : CTask)
    (s : RunState) :
    (taskStep client t s).2.remoteCalls.count T +
        taskWeight T (taskStep client t s).1
      ≤ s.remoteCalls.count T + taskWeight T t := by
  cases hpc : t.pc with
  | ready =>
      cases hl : cacheLookup s.cache t.text with
      | some v =>
          simp only [taskStep, hpc, hl, taskWeight, remoteBudget]
          split <;> omega
      | none =>
          simp only [taskStep, hpc, hl, taskWeight, remoteBudget]
          omega
  | missed =>
      cases hc : client t.text with
      | ok e =>
          simp only [taskStep, hpc, hc, taskWeight, remoteBudget,
            count_append_one]
          by_cases ht : t.text = T <;> simp [ht]
      | error msg =>
          simp only [taskStep, hpc, hc, taskWeight, remoteBudget,
            count_append_one]
          by_cases ht : t.text = T <;> simp [ht]
  | toInsert e => simp [taskStep, hpc, taskWeight, remoteBudget]
  | toWrite e =>
      by_cases he : e.isEmpty <;>
        simp [taskStep, hpc, he, taskWeight, remoteBudget]
  | toPersist => simp [taskStep, hpc, taskWeight, remoteBudget, saveCache]
  | halted => simp [taskStep, hpc]

lemma potential_cstep (client : RemoteClient) (T : String) (c : Conf)
    (i : Nat) :
    potential T (cstep client c i) ≤ potential T c := by
  cases hget : c.tasks[i]? with
  | none => simp [cstep, hget]
  | some t =>
      have hi : i < c.tasks.length := by
        by_contra hcon
        rw [List.getElem?_eq_none (Nat.le_of_not_lt hcon)] at hget
        exact Option.noConfusion hget
      have hgt : c.tasks.get ⟨i, hi⟩ = t := by
        have := List.getElem?_eq_getElem hi
        rw [hget] at this
        simpa [List.get_eq_getElem] using this.symm
      have hsum := sum_map_set (taskWeight T) c.tasks i
        (taskStep client t c.st).1 hi
      rw [hgt] at hsum
      have hkey := taskStep_key client T t c.st
      simp only [cstep, hget, potential]
      omega

lemma potential_crun (client : RemoteClient) (T : String)
    (sched : List Nat) (c : Conf) :
    potential T (crun client sched c) ≤ potential T c := by
  induction sched generalizing c with
  | nil => exact Nat.le_refl _
  | cons i rest ih =>
      exact Nat.le_trans (ih (cstep client c i))
        (potential_cstep client T c i)

lemma weight_sum_ready (T : String) (texts : List String) :
    (texts.map (fun t =>
      taskWeight T { text := t, pc := TaskPC.ready })).sum =
      texts.count T := by
  induction texts with
  | nil => rfl
  | cons a as ih =>
      simp only [List.map_cons, List.sum_cons, List.count_cons, ih]
      by_cases h : a = T <;> simp [taskWeight, remoteBudget, h]
      omega

lemma potential_initConf (w : World) (texts : List String) (T : String) :
    potential T (initConf w texts) = texts.count T := by
  have h := weight_sum_ready T texts
  simp only [potential, initConf, initRunState, List.count_nil,
    List.map_map, Function.comp_def, h, Nat.zero_add]

/-- C3: along every schedule of the worker pool, a text that appears
exactly once among the input texts is sent to the remote embedding API at
most once — the single task owning that text issues at most one call, so
no duplicate remote call arises for it. -/
theorem C3_no_duplicate_remote (client : RemoteClient)
    (texts : List String) (T : String) (sched : List Nat) (w : World)
    (h : texts.count T = 1) :
    ((crun client sched (initConf w texts)).st.remoteCalls.count T) ≤ 1 := by
  have h1 := potential_crun client T sched (initConf w texts)
  have h2 := potential_initConf w texts T
  have h3 : (crun client sched (initConf w texts)).st.remoteCalls.count T
      ≤ potential T (crun client sched (initConf w texts)) :=
    Nat.le_add_right _ _
  omega

/-- Witness for C3 at a concrete schedule that steps the single task to
completion. -/
theorem C3_no_duplicate_remote_witness :
    (["alpha"] : List String).count "alpha" = 1 ∧
    ((crun sampleClient [0, 0, 0, 0, 0, 0]
      (initConf World.empty ["alpha"])).st.remoteCalls.count "alpha") ≤ 1 :=
  ⟨by decide,
    C3_no_duplicate_remote sampleClient ["alpha"] "alpha"
      [0, 0, 0, 0, 0, 0] World.empty (by decide)⟩

end ApiTest
